import Mathlib

/-!
# azfunc: trigger decoding and binding options

A shallow embedding of `triggers/http.go`, `triggers/timer.go` and
`bindings/options.go`, together with the parts of the Go standard library
those files call (`strings`, `net/url`, `net/textproto`, `net/http`).

Conventions of the embedding:

* a Go `string` or `[]byte` is a list of bytes;
* a Go map is an association list with pairwise distinct keys, a `nil` map or
  slice is `none` wherever the code can tell `nil` apart;
* a Go call that can panic returns an `Outcome`;
* `encoding/json`, which works by reflection on the caller's types, is a
  parameter of the functions that call it.
-/

namespace Azfunc

/-! ## Go values -/

/-- A Go `string` (equally a `[]byte`): a finite sequence of bytes. -/
abbrev GoString := List UInt8

instance instDecidableEqGoString : DecidableEq GoString :=
  inferInstanceAs (DecidableEq (List UInt8))

/-- The bytes of a string literal of the Go source (Go source text is UTF-8). -/
def str (s : String) : GoString := s.data.flatMap String.utf8EncodeChar

/-- The byte of an ASCII character literal of the Go source, such as `'&'`. -/
abbrev ch (c : Char) : UInt8 := c.toNat.toUInt8

/-- Modelled from the spec: the type `data.Raw`, declared in package `data`
outside the given files; the spec's RawPayload, a byte sequence compared byte
by byte. The given files use it as a `[]byte`: they pass it to
`json.Unmarshal`, convert it with `string(...)` and return `nil` for it.
`none` is the `nil` slice. -/
abbrev Raw := Option (List UInt8)

/-- Go's conversion `string(b)` of a byte slice: `nil` converts to `""`. -/
def Raw.string : Raw → GoString
  | none => []
  | some b => b

/-- A non-nil `map[string][]string`: the keys are pairwise distinct and kept
in the order of their first insertion. -/
abbrev StrMap := List (GoString × List GoString)

instance instDecidableEqStrMap : DecidableEq StrMap :=
  inferInstanceAs (DecidableEq (List (GoString × List GoString)))

/-- The value `m[k]` of a map; the `nil` (empty) slice when `k` is absent. -/
def StrMap.get : StrMap → GoString → List GoString
  | [], _ => []
  | (k', vs) :: rest, k => if k' = k then vs else StrMap.get rest k

/-- The assignment `m[k] = vs`. -/
def StrMap.set : StrMap → GoString → List GoString → StrMap
  | [], k, vs => [(k, vs)]
  | (k', vs') :: rest, k, vs =>
      if k' = k then (k, vs) :: rest else (k', vs') :: StrMap.set rest k vs

/-- The types `http.Header` and `url.Values`, both `map[string][]string`;
`none` is the `nil` map. -/
abbrev Header := Option StrMap

/-- The type `url.Values`. -/
abbrev Values := Option StrMap

instance instDecidableEqValues : DecidableEq Values :=
  inferInstanceAs (DecidableEq (Option StrMap))

/-- The result of a Go call: it returns, or it panics (here always with an
index out of range). -/
inductive Outcome (α : Type) where
  | returned (a : α)
  | panicked
  deriving DecidableEq, Repr

/-! ## Errors -/

/-- The error variables that `http.go` declares with `errors.New`. -/
inductive HTTPSentinel where
  | ErrHTTPInvalidContentType
  | ErrHTTPInvalidBody
  deriving DecidableEq, Repr

/-- The text given to `errors.New` for each of them. -/
def HTTPSentinel.Error : HTTPSentinel → GoString
  | .ErrHTTPInvalidContentType => str "invalid Content-Type"
  | .ErrHTTPInvalidBody => str "invalid body"

/-- A non-nil Go `error` as the modelled files produce it. -/
inductive GoError where
  /-- Modelled from the spec: the variable `ErrTriggerPayloadMalformed`, declared
  outside the given files; the spec's single `PayloadMalformed` condition. -/
  | ErrTriggerPayloadMalformed
  /-- One of the variables of `http.go`. -/
  | http (s : HTTPSentinel)
  /-- The value `&fmt.wrapError{msg, err}` built by `fmt.Errorf` with `%w`. -/
  | wrapError (msg : GoString) (err : GoError)
  deriving DecidableEq, Repr

/-- The function `errors.Is(e, target)`: `e` is `target` or wraps it. -/
def GoError.Is : GoError → GoError → Bool
  | .wrapError msg err, target =>
      decide (GoError.wrapError msg err = target) || GoError.Is err target
  | e, target => decide (e = target)

/-- The call `fmt.Errorf("%w: %s", e, a)` for a variable `e` of `http.go`. -/
def Errorf (e : HTTPSentinel) (a : GoString) : GoError :=
  .wrapError (e.Error ++ str ": " ++ a) (.http e)

/-! ## Package strings -/

/-- The first loop of `strings.ToLower`: `(isASCII, hasUpper)`; the loop stops
at the first byte `>= utf8.RuneSelf`. -/
def scanASCII : GoString → Bool → Bool × Bool
  | [], hasUpper => (true, hasUpper)
  | c :: s, hasUpper =>
      if c ≥ 0x80 then (false, hasUpper)
      else scanASCII s (hasUpper || (decide (ch 'A' ≤ c) && decide (c ≤ ch 'Z')))

/-- The function `strings.ToLower`. Its ASCII path is modelled; the path for a
string with a byte `>= 0x80`, `strings.Map(unicode.ToLower, s)`, depends on
the Unicode tables and is the parameter `mapLower`. -/
def ToLower (mapLower : GoString → GoString) (s : GoString) : GoString :=
  match scanASCII s false with
  | (true, false) => s
  | (true, true) =>
      s.map fun c => if ch 'A' ≤ c ∧ c ≤ ch 'Z' then c + (ch 'a' - ch 'A') else c
  | (false, _) => mapLower s

/-- The function `strings.Cut(s, sep)` for a separator of one byte:
`(before, after, found)`. -/
def Cut : GoString → UInt8 → GoString × GoString × Bool
  | [], _ => ([], [], false)
  | c :: s, sep =>
      if c = sep then ([], s, true)
      else let r := Cut s sep; (c :: r.1, r.2.1, r.2.2)

/-- The function `strings.Contains(s, sep)` for a separator of one byte. -/
def Contains (s : GoString) (sep : UInt8) : Bool := s.contains sep

/-- The function `strings.Join(elems, sep)`. -/
def Join : List GoString → GoString → GoString
  | [], _ => []
  | [a], _ => a
  | a :: b :: rest, sep => a ++ sep ++ Join (b :: rest) sep

/-! ## Package net/url -/

/-- The function `ishex` of `net/url`. -/
def ishex (c : UInt8) : Bool :=
  if ch '0' ≤ c ∧ c ≤ ch '9' then true
  else if ch 'a' ≤ c ∧ c ≤ ch 'f' then true
  else if ch 'A' ≤ c ∧ c ≤ ch 'F' then true
  else false

/-- The function `unhex` of `net/url`. -/
def unhex (c : UInt8) : UInt8 :=
  if ch '0' ≤ c ∧ c ≤ ch '9' then c - ch '0'
  else if ch 'a' ≤ c ∧ c ≤ ch 'f' then c - ch 'a' + 10
  else if ch 'A' ≤ c ∧ c ≤ ch 'F' then c - ch 'A' + 10
  else 0

/-- The first loop of `unescape(s, encodeQueryComponent)`: it counts the `%`
and notes a `+`, and fails with `EscapeError` of the (at most three) bytes at
the first `%` that two hex digits do not follow. The arguments `n` and
`hasPlus` are the loop's variables. -/
def unescapeScan : GoString → Nat → Bool → Except GoString (Nat × Bool)
  | [], n, hasPlus => .ok (n, hasPlus)
  | c :: rest, n, hasPlus =>
      if c = ch '%' then
        match rest with
        | a :: b :: rest' =>
            if !ishex a || !ishex b then .error [c, a, b]
            else unescapeScan rest' (n + 1) hasPlus
        | _ => .error (c :: rest)
      else if c = ch '+' then unescapeScan rest n true
      else unescapeScan rest n hasPlus

/-- The second loop of `unescape(s, encodeQueryComponent)`, which writes the
decoded bytes; `s[i+1]` and `s[i+2]` panic when out of range. -/
def unescapeBuild : GoString → Outcome GoString
  | [] => .returned []
  | c :: rest =>
      if c = ch '%' then
        match rest with
        | a :: b :: rest' =>
            match unescapeBuild rest' with
            | .returned t => .returned ((unhex a <<< 4 ||| unhex b) :: t)
            | .panicked => .panicked
        | _ => .panicked
      else
        match unescapeBuild rest with
        | .returned t => .returned ((if c = ch '+' then ch ' ' else c) :: t)
        | .panicked => .panicked

/-- The function `url.QueryUnescape(s)`, that is
`unescape(s, encodeQueryComponent)`: the decoded string, or `EscapeError`. -/
def QueryUnescape (s : GoString) : Outcome (Except GoString GoString) :=
  match unescapeScan s 0 false with
  | .error e => .returned (.error e)
  | .ok (n, hasPlus) =>
      if n = 0 ∧ hasPlus = false then .returned (.ok s)
      else
        match unescapeBuild s with
        | .returned t => .returned (.ok t)
        | .panicked => .panicked

/-- The errors of `url.ParseQuery`. -/
inductive ParseErr where
  /-- The error "invalid semicolon separator in query". -/
  | semicolon
  /-- An `EscapeError` with the offending bytes. -/
  | escape (s : GoString)
  deriving DecidableEq, Repr

/-- The loop `for query != ""` of `parseQuery(m, query)` in `net/url` (Go 1.17
and later, where a semicolon is an error). `err` is the function's named
result. Every round removes at least one byte of `query`, so `fuel` at least
the length of `query` lets the loop end by itself. -/
def parseQueryLoop : Nat → StrMap → Option ParseErr → GoString →
    Outcome (StrMap × Option ParseErr)
  | 0, m, err, _ => .returned (m, err)
  | fuel + 1, m, err, query =>
      if query = [] then .returned (m, err)
      else
        let c := Cut query (ch '&')
        let key := c.1
        let query := c.2.1
        if Contains key (ch ';') then parseQueryLoop fuel m (some .semicolon) query
        else if key = [] then parseQueryLoop fuel m err query
        else
          let kv := Cut key (ch '=')
          match QueryUnescape kv.1 with
          | .panicked => .panicked
          | .returned (.error e) =>
              parseQueryLoop fuel m (if err = none then some (.escape e) else err) query
          | .returned (.ok key) =>
              match QueryUnescape kv.2.1 with
              | .panicked => .panicked
              | .returned (.error e) =>
                  parseQueryLoop fuel m (if err = none then some (.escape e) else err) query
              | .returned (.ok value) =>
                  parseQueryLoop fuel (m.set key (m.get key ++ [value])) err query

/-- The function `url.ParseQuery(query)`: the map built so far and the first
error met, if any. -/
def ParseQuery (query : GoString) : Outcome (StrMap × Option ParseErr) :=
  parseQueryLoop query.length [] none query

/-! ## Packages net/textproto and net/http -/

/-- The function `validHeaderFieldByte` of `net/textproto`: the bytes of an
RFC 7230 token, which the source keeps as a 128-bit mask. -/
def validHeaderFieldByte (c : UInt8) : Bool :=
  (decide (ch '0' ≤ c) && decide (c ≤ ch '9')) ||
  (decide (ch 'a' ≤ c) && decide (c ≤ ch 'z')) ||
  (decide (ch 'A' ≤ c) && decide (c ≤ ch 'Z')) ||
  [ch '!', ch '#', ch '$', ch '%', ch '&', 0x27, ch '*', ch '+', ch '-', ch '.',
    ch '^', ch '_', 0x60, ch '|', ch '~'].contains c

/-- The constant `toLower = 'a' - 'A'` of `net/textproto`. -/
def toLower : UInt8 := ch 'a' - ch 'A'

/-- The first loop of `canonicalMIMEHeaderKey(a)`: `none` when it returns
`string(a), false` at a byte that is neither valid nor a space, otherwise the
final `noCanon`. -/
def canonScan : GoString → Bool → Option Bool
  | [], noCanon => some noCanon
  | c :: a, noCanon =>
      if validHeaderFieldByte c then canonScan a noCanon
      else if c = ch ' ' then canonScan a true
      else none

/-- The second loop of `canonicalMIMEHeaderKey(a)`: upper case for the first
letter and after each dash, lower case elsewhere. -/
def canonLoop : GoString → Bool → GoString
  | [], _ => []
  | c :: a, upper =>
      let c :=
        if upper ∧ ch 'a' ≤ c ∧ c ≤ ch 'z' then c - toLower
        else if ¬ upper ∧ ch 'A' ≤ c ∧ c ≤ ch 'Z' then c + toLower
        else c
      c :: canonLoop a (decide (c = ch '-'))

/-- The function `canonicalMIMEHeaderKey(a)` of `net/textproto`. Its final
look-up in `commonHeader` returns a string equal to `a`. -/
def canonicalMIMEHeaderKey (a : GoString) : GoString × Bool :=
  match canonScan a false with
  | none => (a, false)
  | some true => (a, true)
  | some false => (canonLoop a true, true)

/-- The loop of `textproto.CanonicalMIMEHeaderKey(s)` over the bytes still to
check, with its variable `upper`. -/
def canonicalQuick : GoString → Bool → GoString → GoString
  | [], _, s => s
  | c :: rest, upper, s =>
      if !validHeaderFieldByte c then s
      else if upper ∧ ch 'a' ≤ c ∧ c ≤ ch 'z' then (canonicalMIMEHeaderKey s).1
      else if ¬ upper ∧ ch 'A' ≤ c ∧ c ≤ ch 'Z' then (canonicalMIMEHeaderKey s).1
      else canonicalQuick rest (decide (c = ch '-')) s

/-- The function `textproto.CanonicalMIMEHeaderKey(s)`. -/
def CanonicalMIMEHeaderKey (s : GoString) : GoString := canonicalQuick s true s

/-- The method `http.Header.Get(key)`: the first value of the canonical key,
`""` when there is none or the map is `nil`. -/
def Header.Get (h : Header) (key : GoString) : GoString :=
  match h with
  | none => []
  | some m =>
      match m.get (CanonicalMIMEHeaderKey key) with
      | [] => []
      | v0 :: _ => v0

/-- The method `http.Header.Add(key, value)` on a non-nil map: it appends
`value` to the values of the canonical key. -/
def StrMap.Add (h : StrMap) (key value : GoString) : StrMap :=
  let key := CanonicalMIMEHeaderKey key
  h.set key (h.get key ++ [value])

/-- The body of an `*http.Request`, an `io.ReadCloser`: the bytes it yields,
and how many times `Close` has been called on it. -/
structure ReadCloser where
  data : List UInt8
  closed : Nat
  deriving DecidableEq, Repr

/-- The method `Close` of the request body. -/
def ReadCloser.Close (b : ReadCloser) : ReadCloser := { b with closed := b.closed + 1 }

/-- The part of an `*http.Request` that the constructors use: its body. The
request and its body are not `nil`. -/
structure Request where
  Body : ReadCloser
  deriving DecidableEq, Repr

/-! ## triggers/http.go -/

/-- The struct `HTTPIdentityClaims`; its field `Type` is `Type_` here. -/
structure HTTPIdentityClaims where
  Issuer : GoString
  OriginalIssuer : GoString
  Type_ : GoString
  Value : GoString
  ValueType : GoString
  Properties : Option (List (GoString × GoString))
  deriving DecidableEq, Repr

/-- The struct `HTTPIdentity`; `Any` is the interface type `any`. -/
structure HTTPIdentity (Any : Type) where
  IsAuthenticated : Bool
  AuthenticationType : GoString
  NameClaimType : GoString
  RoleClaimType : GoString
  Actor : Any
  BootstrapContext : Any
  Label : Any
  Name : Any
  Claims : Option (List HTTPIdentityClaims)
  deriving DecidableEq, Repr

/-- The struct `HTTPMetadata`; `Metadata` is the embedded struct of that
name, declared outside the given files. -/
structure HTTPMetadata (Metadata : Type) where
  Headers : Option (List (GoString × GoString))
  Params : Option (List (GoString × GoString))
  Query : Option (List (GoString × GoString))
  Metadata : Metadata
  deriving DecidableEq, Repr

/-- The struct `HTTP`, an HTTP trigger. -/
structure HTTP (Any Metadata : Type) where
  URL : GoString
  Method : GoString
  Body : Raw
  Headers : Header
  Params : Option (List (GoString × GoString))
  Query : Option (List (GoString × GoString))
  Identities : Option (List (HTTPIdentity Any))
  Metadata : HTTPMetadata Metadata
  deriving DecidableEq, Repr

/-- The anonymous struct of the field `Data.Req` of `httpTrigger`. -/
structure httpTriggerReq (Any : Type) where
  URL : GoString
  Method : GoString
  Body : Raw
  Headers : Header
  Params : Option (List (GoString × GoString))
  Query : Option (List (GoString × GoString))
  Identities : Option (List (HTTPIdentity Any))
  deriving DecidableEq, Repr

/-- The anonymous struct of the field `Data` of `httpTrigger`. -/
structure httpTriggerData (Any : Type) where
  Req : httpTriggerReq Any
  deriving DecidableEq, Repr

/-- The struct `httpTrigger`, the incoming request from the Function host. -/
structure httpTrigger (Any Metadata : Type) where
  Data : httpTriggerData Any
  Metadata : HTTPMetadata Metadata
  deriving DecidableEq, Repr

/-- The method `HTTP.Parse(v)`: `return json.Unmarshal(t.Body, &v)`. The
parameter `Unmarshal` is `encoding/json`: from the bytes and the target that
`v` points to, the target afterwards and the error. -/
def HTTP.Parse {Any Metadata Target JSONError : Type}
    (Unmarshal : List UInt8 → Target → Target × Option JSONError)
    (t : HTTP Any Metadata) (v : Target) : Target × Option JSONError :=
  Unmarshal t.Body.string v

/-- The method `HTTP.Data()`. -/
def HTTP.Data {Any Metadata : Type} (t : HTTP Any Metadata) : Raw := t.Body

/-- The loop `for _, v := range data` of `FormData`: `some` outcome when the
loop body returns or `v[0]` panics, `none` when the loop runs to its end.
`body` is `string(t.Body)`. -/
def formDataRange (body : GoString) : StrMap → Option (Outcome (Values × Option GoError))
  | [] => none
  | (_, v) :: rest =>
      match v with
      | [] => some .panicked
      | v0 :: _ =>
          if v0.length = 0 then some (.returned (none, some (Errorf .ErrHTTPInvalidBody body)))
          else formDataRange body rest

/-- The method `HTTP.FormData()`; `mapLower` is the non-ASCII path of
`strings.ToLower`. The result is the pair `(url.Values, error)`. -/
def HTTP.FormData {Any Metadata : Type} (mapLower : GoString → GoString)
    (t : HTTP Any Metadata) : Outcome (Values × Option GoError) :=
  let contentType := t.Headers.Get (str "Content-Type")
  if ToLower mapLower contentType ≠ str "application/x-www-form-urlencoded" then
    .returned (none, some (Errorf .ErrHTTPInvalidContentType contentType))
  else
    match ParseQuery t.Body.string with
    | .panicked => .panicked
    | .returned (_, some _) =>
        .returned (none, some (Errorf .ErrHTTPInvalidBody t.Body.string))
    | .returned (data, none) =>
        match (if data.length = 1 then formDataRange t.Body.string data else none) with
        | some out => out
        | none => .returned (some data, none)

/-- The function `NewHTTP(r, options...)`. `Decode` is
`json.NewDecoder(r.Body).Decode(&t)` on the zero `httpTrigger`: the decoded
`t` when the error is `nil`, `none` otherwise. `TOptions` is the struct
`Options` of package `triggers`, declared outside the given files, and
`zero` its zero value. The result is the pair `(*HTTP, error)` and the
request afterwards. -/
def NewHTTP {Any Metadata TOptions : Type}
    (Decode : List UInt8 → Option (httpTrigger Any Metadata)) (zero : TOptions)
    (r : Request) (options : List (TOptions → TOptions)) :
    (Option (HTTP Any Metadata) × Option GoError) × Request :=
  let _opts := options.foldl (fun opts option => option opts) zero
  match Decode r.Body.data with
  | none => ((none, some .ErrTriggerPayloadMalformed), r)
  | some t =>
      ((some {
          URL := t.Data.Req.URL
          Method := t.Data.Req.Method
          Body := t.Data.Req.Body
          Headers := t.Data.Req.Headers
          Params := t.Data.Req.Params
          Query := t.Data.Req.Query
          Identities := t.Data.Req.Identities
          Metadata := t.Metadata }, none),
        { r with Body := r.Body.Close })

/-! ## triggers/timer.go -/

/-- The struct `TimerOptions`. -/
structure TimerOptions where
  deriving DecidableEq, Repr

/-- The type `TimerOption`, `func(o *TimerOptions)`. -/
abbrev TimerOption := TimerOptions → TimerOptions

/-- The struct `TimerSchedule`. -/
structure TimerSchedule where
  AdjustForDST : Bool
  deriving DecidableEq, Repr

/-- The struct `TimerScheduleStatus`; `Time` is `time.Time`. -/
structure TimerScheduleStatus (Time : Type) where
  Last : Time
  Next : Time
  LastUpdated : Time
  deriving DecidableEq, Repr

/-- The struct `Timer`, a Timer trigger. -/
structure Timer (Time Metadata : Type) where
  ScheduleStatus : TimerScheduleStatus Time
  Metadata : Metadata
  Schedule : TimerSchedule
  IsPastDue : Bool
  deriving DecidableEq, Repr

/-- The anonymous struct of the field `Data.Timer` of `timerTrigger`. -/
structure timerTriggerTimer (Time : Type) where
  ScheduleStatus : TimerScheduleStatus Time
  Schedule : TimerSchedule
  IsPastDue : Bool
  deriving DecidableEq, Repr

/-- The anonymous struct of the field `Data` of `timerTrigger`. -/
structure timerTriggerData (Time : Type) where
  Timer : timerTriggerTimer Time
  deriving DecidableEq, Repr

/-- The struct `timerTrigger`, the incoming request from the Function host. -/
structure timerTrigger (Time Metadata : Type) where
  Data : timerTriggerData Time
  Metadata : Metadata
  deriving DecidableEq, Repr

/-- The method `Timer.Parse(v)`: `return nil`. The result is the target that
`v` points to afterwards and the error. -/
def Timer.Parse {Time Metadata Target : Type} (_t : Timer Time Metadata) (v : Target) :
    Target × Option GoError :=
  (v, none)

/-- The method `Timer.Data()`: `return nil`. -/
def Timer.Data {Time Metadata : Type} (_t : Timer Time Metadata) : Raw := none

/-- The function `NewTimer(r, options...)`; `Decode` is
`json.NewDecoder(r.Body).Decode(&t)` on the zero `timerTrigger`, as for
`NewHTTP`. -/
def NewTimer {Time Metadata : Type}
    (Decode : List UInt8 → Option (timerTrigger Time Metadata))
    (r : Request) (options : List TimerOption) :
    (Option (Timer Time Metadata) × Option GoError) × Request :=
  let _opts := options.foldl (fun opts option => option opts) ({} : TimerOptions)
  match Decode r.Body.data with
  | none => ((none, some .ErrTriggerPayloadMalformed), r)
  | some t =>
      ((some {
          Schedule := t.Data.Timer.Schedule
          ScheduleStatus := t.Data.Timer.ScheduleStatus
          IsPastDue := t.Data.Timer.IsPastDue
          Metadata := t.Metadata }, none),
        { r with Body := r.Body.Close })

/-! ## bindings/options.go -/

/-- The struct `Options` of package `bindings`. -/
structure bindings.Options where
  StatusCode : Int
  Body : Raw
  Header : Header
  Data : Raw
  Name : GoString
  deriving DecidableEq, Repr

/-- The type `Option` of package `bindings`, `func(o *Options)`. -/
abbrev bindings.Option := bindings.Options → bindings.Options

/-- The loop `for k, v := range header` of `WithHeader` on the non-nil
`o.Header`. Go ranges over a map in no fixed order; the model takes the
entries in the order of the list. -/
def withHeaderRange : StrMap → StrMap → StrMap
  | h, [] => h
  | h, (k, v) :: header => withHeaderRange (h.Add k (Join v (str ", "))) header

/-- The function `WithHeader(header)`. -/
def bindings.WithHeader (header : Header) : bindings.Option := fun o =>
  let h : StrMap := match o.Header with
    | none => []
    | some h => h
  { o with Header := some (withHeaderRange h (header.getD [])) }

/-! ## URL-query decoding, from the words of the specification

The definitions of this section do not follow `net/url`. They say what
"URL-encoded form data" is, for comparison with `ParseQuery`. -/

/-- Stated from the specification: the value of a hexadecimal digit, its
place among `0123456789abcdef` or among `0123456789ABCDEF`. -/
def Spec.hexValue (c : UInt8) : Option Nat :=
  let i := (str "0123456789abcdef").indexOf c
  let j := (str "0123456789ABCDEF").indexOf c
  if i < 16 then some i else if j < 16 then some j else none

/-- Stated from the specification: percent- and plus-decoding. `%XY` is the
byte of hexadecimal value `XY`, `+` is a space, every other byte is itself;
a `%` that two hexadecimal digits do not follow has no decoding. -/
def Spec.percentDecode : GoString → Option GoString
  | [] => some []
  | c :: rest =>
      if c = ch '%' then
        match rest with
        | a :: b :: rest' =>
            match Spec.hexValue a, Spec.hexValue b, Spec.percentDecode rest' with
            | some x, some y, some t => some (UInt8.ofNat (16 * x + y) :: t)
            | _, _, _ => none
        | _ => none
      else
        match Spec.percentDecode rest with
        | some t => some ((if c = ch '+' then ch ' ' else c) :: t)
        | none => none

/-- Stated from the specification: the `key=value` pieces of a body, which
`&` separates; an empty piece is no pair. -/
def Spec.queryPieces (body : GoString) : List GoString :=
  (body.splitOn (ch '&')).filter fun p => p ≠ []

/-- Stated from the specification: the pair of a piece. The key is what
precedes the first `=`, the value what follows it (empty without `=`), both
decoded. -/
def Spec.decodePair (p : GoString) : Option (GoString × GoString) :=
  match Spec.percentDecode (p.takeWhile fun c => c ≠ ch '='),
      Spec.percentDecode ((p.dropWhile fun c => c ≠ ch '=').drop 1) with
  | some k, some v => some (k, v)
  | _, _ => none

/-- Stated from the specification: the pairs of a list of pieces, in order,
when every piece decodes. -/
def Spec.decodeAll : List GoString → Option (List (GoString × GoString))
  | [] => some []
  | p :: ps =>
      match Spec.decodePair p, Spec.decodeAll ps with
      | some kv, some rest => some (kv :: rest)
      | _, _ => none

/-- Stated from the specification: the decoded `key=value` pairs of a body,
in body order. -/
def Spec.decodedPairs (body : GoString) : Option (List (GoString × GoString)) :=
  Spec.decodeAll (Spec.queryPieces body)

/-- Stated from the specification: the values of the key `k` among the
pairs, in body order. -/
def Spec.valuesOf (pairs : List (GoString × GoString)) (k : GoString) : List GoString :=
  pairs.filterMap fun p => if p.1 = k then some p.2 else none

/-! ## Auxiliary definitions and examples -/

/-- The map after `m[k] = append(m[k], v)` for each pair `(k, v)` in turn. -/
def addPairs (m : StrMap) (pairs : List (GoString × GoString)) : StrMap :=
  pairs.foldl (fun m p => m.set p.1 (m.get p.1 ++ [p.2])) m

/-- The entries of a map all hold at least one value. -/
def StrMap.valuesNonempty (m : StrMap) : Prop := ∀ kv ∈ m, kv.2 ≠ []

/-- An HTTP trigger with the given `Content-Type` header and body and nothing else. -/
def formTrigger (contentType body : GoString) : HTTP Unit Unit :=
  { URL := [], Method := [], Body := some body,
    Headers := some [(str "Content-Type", [contentType])],
    Params := none, Query := none, Identities := none,
    Metadata := { Headers := none, Params := none, Query := none, Metadata := () } }

/-- An envelope for the examples: a `POST` request with a form body. -/
def sampleEnvelope : httpTrigger Unit Unit :=
  { Data := { Req := {
      URL := str "http://localhost/api/form", Method := str "POST",
      Body := some (str "x=1"),
      Headers := some [(str "Content-Type", [str "application/x-www-form-urlencoded"])],
      Params := none, Query := none, Identities := none } },
    Metadata := { Headers := none, Params := none, Query := none, Metadata := () } }

/-- A request for the examples, whose body has not been closed. -/
def sampleRequest : Request := { Body := { data := str "envelope", closed := 0 } }

/-- A decoder for the examples: it accepts the stream of `sampleRequest`, as
`sampleEnvelope`, and rejects every other stream. -/
def sampleDecode (b : List UInt8) : Option (httpTrigger Unit Unit) :=
  if b = str "envelope" then some sampleEnvelope else none

/-! # Theorems -/

/-! ## Lemmas on `unescape` -/

theorem forall_byte (P : UInt8 → Prop) (h : ∀ n, n < 256 → P (UInt8.ofNat n)) : ∀ c, P c := by
  intro c
  have h1 := h c.toNat c.toNat_lt
  have h2 : UInt8.ofNat c.toNat = c := by
    cases c with
    | mk v =>
      apply UInt8.eq_of_val_eq
      simp [UInt8.ofNat, UInt8.toNat, Fin.ofNat]
  rwa [h2] at h1

set_option maxRecDepth 100000 in
theorem unhex_eq_hexValue : ∀ c, (ishex c = (Spec.hexValue c).isSome) ∧
    ∀ x ∈ Spec.hexValue c, x < 16 ∧ unhex c = UInt8.ofNat x := by
  apply forall_byte
  decide!

theorem nibbles : ∀ x, x < 16 → ∀ y, y < 16 →
    (UInt8.ofNat x <<< 4 ||| UInt8.ofNat y) = UInt8.ofNat (16 * x + y) := by
  decide

theorem hexValue_of_ishex (a : UInt8) (ha : ishex a = true) :
    ∃ x, Spec.hexValue a = some x ∧ x < 16 ∧ unhex a = UInt8.ofNat x := by
  have h := unhex_eq_hexValue a
  rw [ha] at h
  obtain ⟨x, hx⟩ := Option.isSome_iff_exists.mp h.1.symm
  exact ⟨x, hx, h.2 x (by simp [hx])⟩

theorem hexValue_of_not_ishex (a : UInt8) (ha : ishex a = false) : Spec.hexValue a = none := by
  have h := (unhex_eq_hexValue a).1
  rw [ha] at h
  cases hv : Spec.hexValue a with
  | none => rfl
  | some x => simp [hv] at h

theorem both_of_not_or_not (a b : Bool) (h : ¬ (!a || !b) = true) : a = true ∧ b = true := by
  cases a <;> cases b <;> simp at h ⊢

theorem either_of_or_not (a b : Bool) (h : (!a || !b) = true) : a = false ∨ b = false := by
  cases a <;> cases b <;> simp at h ⊢

theorem unescapeScan_mono (s : GoString) (n : Nat) (hasPlus : Bool) :
    ∀ r, unescapeScan s n hasPlus = .ok r → n ≤ r.1 ∧ (hasPlus = true → r.2 = true) := by
  induction s, n, hasPlus using unescapeScan.induct with
  | case1 n hp => intro r h; simp [unescapeScan] at h; subst h; simp
  | case2 n hp a b rest' hbad => intro r h; simp [unescapeScan, hbad] at h
  | case3 n hp a b rest' hgood ih =>
      intro r h
      simp only [unescapeScan, if_true, hgood, if_false] at h
      have := ih r (by simpa using h)
      exact ⟨by omega, this.2⟩
  | case4 rest n hp hrest =>
      intro r h
      unfold unescapeScan at h
      simp only [if_true] at h
      cases h
  | case5 rest n hp hne ih =>
      intro r h
      unfold unescapeScan at h
      simp only [hne, if_true, if_false] at h
      have := ih r h
      exact ⟨this.1, fun _ => this.2 rfl⟩
  | case6 c rest n hp h1 h2 ih =>
      intro r h
      unfold unescapeScan at h
      simp only [h1, h2, if_false] at h
      exact ih r h

theorem unescapeBuild_of_scan (s : GoString) (n : Nat) (hasPlus : Bool) :
    ∀ r, unescapeScan s n hasPlus = .ok r →
      ∃ t, unescapeBuild s = .returned t ∧ Spec.percentDecode s = some t := by
  induction s, n, hasPlus using unescapeScan.induct with
  | case1 n hp => intro r _; exact ⟨[], rfl, rfl⟩
  | case2 n hp a b rest' hbad => intro r h; simp [unescapeScan, hbad] at h
  | case3 n hp a b rest' hgood ih =>
      intro r h
      simp only [unescapeScan, if_true, hgood, if_false] at h
      obtain ⟨t, ht, hd⟩ := ih r (by simpa using h)
      have hab := both_of_not_or_not (ishex a) (ishex b) hgood
      obtain ⟨x, hx, hx16, hxa⟩ := hexValue_of_ishex a hab.1
      obtain ⟨y, hy, hy16, hyb⟩ := hexValue_of_ishex b hab.2
      refine ⟨(unhex a <<< 4 ||| unhex b) :: t, ?_, ?_⟩
      · simp [unescapeBuild, ht]
      · simp [Spec.percentDecode, hx, hy, hd, hxa, hyb, nibbles x hx16 y hy16]
  | case4 rest n hp hrest =>
      intro r h
      unfold unescapeScan at h
      simp only [if_true] at h
      cases h
  | case5 rest n hp hne ih =>
      intro r h
      unfold unescapeScan at h
      simp only [hne, if_true, if_false] at h
      obtain ⟨t, ht, hd⟩ := ih r h
      refine ⟨ch ' ' :: t, ?_, ?_⟩
      · unfold unescapeBuild
        simp [hne, ht]
      · unfold Spec.percentDecode
        simp [hne, hd]
  | case6 c rest n hp h1 h2 ih =>
      intro r h
      unfold unescapeScan at h
      simp only [h1, h2, if_false] at h
      obtain ⟨t, ht, hd⟩ := ih r h
      refine ⟨c :: t, ?_, ?_⟩
      · unfold unescapeBuild
        simp [h1, h2, ht]
      · unfold Spec.percentDecode
        simp [h1, h2, hd]

theorem percentDecode_of_scan_plain (s : GoString) (n : Nat) (hasPlus : Bool) :
    unescapeScan s n hasPlus = .ok (n, false) → Spec.percentDecode s = some s := by
  induction s, n, hasPlus using unescapeScan.induct with
  | case1 n hp => intro _; rfl
  | case2 n hp a b rest' hbad => intro h; simp [unescapeScan, hbad] at h
  | case3 n hp a b rest' hgood ih =>
      intro h
      simp only [unescapeScan, if_true, hgood, if_false] at h
      have := (unescapeScan_mono rest' (n + 1) hp _ (by simpa using h)).1
      simp at this
  | case4 rest n hp hrest =>
      intro h
      unfold unescapeScan at h
      simp only [if_true] at h
      cases h
  | case5 rest n hp hne ih =>
      intro h
      unfold unescapeScan at h
      simp only [hne, if_true, if_false] at h
      have := (unescapeScan_mono rest n true _ h).2 rfl
      simp at this
  | case6 c rest n hp h1 h2 ih =>
      intro h
      unfold unescapeScan at h
      simp only [h1, h2, if_false] at h
      unfold Spec.percentDecode
      simp [h1, h2, ih h]

theorem percentDecode_of_scan_error (s : GoString) (n : Nat) (hasPlus : Bool) :
    ∀ e, unescapeScan s n hasPlus = .error e → Spec.percentDecode s = none := by
  induction s, n, hasPlus using unescapeScan.induct with
  | case1 n hp => intro e h; simp [unescapeScan] at h
  | case2 n hp a b rest' hbad =>
      intro e _
      have hab := either_of_or_not (ishex a) (ishex b) hbad
      rcases hab with ha | hb
      · simp [Spec.percentDecode, hexValue_of_not_ishex a ha]
      · simp [Spec.percentDecode, hexValue_of_not_ishex b hb]
  | case3 n hp a b rest' hgood ih =>
      intro e h
      simp only [unescapeScan, if_true, hgood, if_false] at h
      have := ih e (by simpa using h)
      simp [Spec.percentDecode, this]
  | case4 rest n hp hrest =>
      intro e _
      match rest, hrest with
      | [], _ => rfl
      | [_], _ => rfl
      | a :: b :: r, hrest => exact absurd rfl (hrest a b r)
  | case5 rest n hp hne ih =>
      intro e h
      unfold unescapeScan at h
      simp only [hne, if_true, if_false] at h
      unfold Spec.percentDecode
      simp [hne, ih e h]
  | case6 c rest n hp h1 h2 ih =>
      intro e h
      unfold unescapeScan at h
      simp only [h1, h2, if_false] at h
      unfold Spec.percentDecode
      simp [h1, h2, ih e h]

theorem QueryUnescape_of_decode (s t : GoString) (h : Spec.percentDecode s = some t) :
    QueryUnescape s = .returned (.ok t) := by
  unfold QueryUnescape
  split
  · rename_i e he
    rw [percentDecode_of_scan_error s 0 false e he] at h
    cases h
  · rename_i n hp hs
    split
    · rename_i hfast
      obtain ⟨hn, hhp⟩ := hfast
      subst hn; subst hhp
      rw [percentDecode_of_scan_plain s 0 false hs] at h
      cases h
      rfl
    · obtain ⟨t', ht', hd⟩ := unescapeBuild_of_scan s 0 false _ hs
      rw [hd] at h
      cases h
      simp [ht']

theorem QueryUnescape_of_decode_none (s : GoString) (h : Spec.percentDecode s = none) :
    ∃ e, QueryUnescape s = .returned (.error e) := by
  unfold QueryUnescape
  split
  · rename_i e he
    exact ⟨e, rfl⟩
  · rename_i n hp hs
    obtain ⟨t', _, hd⟩ := unescapeBuild_of_scan s 0 false _ hs
    rw [hd] at h
    cases h

/-! ## Lemmas on `Cut` and on the pieces of a query -/

theorem Cut_eq (q : GoString) (sep : UInt8) :
    Cut q sep = (q.takeWhile (fun c => c ≠ sep), (q.dropWhile fun c => c ≠ sep).drop 1,
      decide (sep ∈ q)) := by
  induction q with
  | nil => simp [Cut]
  | cons c s ih =>
      by_cases h : c = sep
      · subst h; simp [Cut]
      · have h' : ¬ sep = c := fun e => h e.symm
        simp [Cut, h, h', ih, List.takeWhile_cons, List.dropWhile_cons]

theorem Cut_length (q : GoString) (sep : UInt8) (hq : q ≠ []) :
    (Cut q sep).2.1.length < q.length := by
  induction q with
  | nil => exact absurd rfl hq
  | cons c s ih =>
      by_cases h : c = sep
      · simp [Cut, h]
      · simp only [Cut, h, if_false, List.length_cons]
        by_cases hs : s = []
        · subst hs; simp [Cut]
        · have := ih hs
          omega

theorem splitOn_Cut (q : GoString) (sep : UInt8) :
    q.splitOn sep =
      (Cut q sep).1 :: (if (Cut q sep).2.2 = true then (Cut q sep).2.1.splitOn sep else []) := by
  induction q with
  | nil => simp [Cut, List.splitOn, List.splitOnP_nil]
  | cons c s ih =>
      have hc : (c :: s).splitOn sep =
          if (c == sep) = true then [] :: s.splitOn sep
          else List.modifyHead (List.cons c) (s.splitOn sep) := by
        simp only [List.splitOn]
        exact List.splitOnP_cons _ c s
      rw [hc]
      by_cases h : c = sep
      · simp [Cut, h]
      · simp only [Cut, h, if_false, beq_iff_eq]
        rw [ih]
        simp [List.modifyHead]

theorem queryPieces_Cut (q : GoString) :
    Spec.queryPieces q =
      (if (Cut q (ch '&')).1 = [] then [] else [(Cut q (ch '&')).1]) ++
        Spec.queryPieces (Cut q (ch '&')).2.1 := by
  unfold Spec.queryPieces
  conv => lhs; rw [splitOn_Cut]
  by_cases hf : (Cut q (ch '&')).2.2 = true
  · by_cases h1 : (Cut q (ch '&')).1 = [] <;> simp [hf, h1, List.filter_cons]
  · have h2 : (Cut q (ch '&')).2.1 = [] := by
      have hmem : ch '&' ∉ q := by
        rw [Cut_eq] at hf
        simpa using hf
      have hd : List.dropWhile (fun c => decide (c ≠ ch '&')) q = [] := by
        rw [List.dropWhile_eq_nil_iff]
        intro x hx
        simp only [decide_eq_true_eq]
        intro e
        exact hmem (e ▸ hx)
      rw [Cut_eq]
      show (List.dropWhile (fun c => decide (c ≠ ch '&')) q).drop 1 = []
      rw [hd]
      rfl
    by_cases h1 : (Cut q (ch '&')).1 = [] <;> simp [hf, h1, h2, List.filter_cons, List.splitOn, List.splitOnP_nil]

/-! ## The loop of `parseQuery` -/

theorem decodePair_Cut (p : GoString) :
    Spec.decodePair p =
      match Spec.percentDecode (Cut p (ch '=')).1, Spec.percentDecode (Cut p (ch '=')).2.1 with
      | some k, some v => some (k, v)
      | _, _ => none := by
  rw [Cut_eq]
  rfl

theorem parseQueryLoop_induct
    (R : StrMap → Option ParseErr → GoString → Outcome (StrMap × Option ParseErr) → Prop)
    (h_end : ∀ m err, R m err [] (.returned (m, err)))
    (h_semi : ∀ m err q r, q ≠ [] → Contains (Cut q (ch '&')).1 (ch ';') = true →
        R m (some .semicolon) (Cut q (ch '&')).2.1 r → R m err q r)
    (h_empty : ∀ m err q r, q ≠ [] → (Cut q (ch '&')).1 = [] →
        R m err (Cut q (ch '&')).2.1 r → R m err q r)
    (h_bad : ∀ m err q r e, q ≠ [] → Contains (Cut q (ch '&')).1 (ch ';') = false →
        (Cut q (ch '&')).1 ≠ [] → Spec.decodePair (Cut q (ch '&')).1 = none →
        R m (if err = none then some (.escape e) else err) (Cut q (ch '&')).2.1 r → R m err q r)
    (h_ok : ∀ m err q r k v, q ≠ [] → Contains (Cut q (ch '&')).1 (ch ';') = false →
        (Cut q (ch '&')).1 ≠ [] → Spec.decodePair (Cut q (ch '&')).1 = some (k, v) →
        R (m.set k (m.get k ++ [v])) err (Cut q (ch '&')).2.1 r → R m err q r) :
    ∀ fuel m err q, q.length ≤ fuel → R m err q (parseQueryLoop fuel m err q) := by
  intro fuel
  induction fuel with
  | zero =>
      intro m err q hq
      have : q = [] := List.length_eq_zero.mp (Nat.le_zero.mp hq)
      subst this
      exact h_end m err
  | succ fuel ih =>
      intro m err q hq
      by_cases hnil : q = []
      · subst hnil
        simp only [parseQueryLoop, if_true]
        exact h_end m err
      · have hlen : (Cut q (ch '&')).2.1.length ≤ fuel := by
          have := Cut_length q (ch '&') hnil
          omega
        simp only [parseQueryLoop, hnil, if_false]
        by_cases hsemi : Contains (Cut q (ch '&')).1 (ch ';') = true
        · simp only [hsemi, if_true]
          exact h_semi m err q _ hnil hsemi (ih _ _ _ hlen)
        · have hsemi' : Contains (Cut q (ch '&')).1 (ch ';') = false := by
            simpa using hsemi
          simp only [hsemi', Bool.false_eq_true, if_false]
          by_cases hkey : (Cut q (ch '&')).1 = []
          · simp only [hkey, if_true]
            exact h_empty m err q _ hnil hkey (ih _ _ _ hlen)
          · simp only [hkey, if_false]
            have hdp := decodePair_Cut (Cut q (ch '&')).1
            cases hk : Spec.percentDecode (Cut (Cut q (ch '&')).1 (ch '=')).1 with
            | none =>
                obtain ⟨e, he⟩ := QueryUnescape_of_decode_none _ hk
                simp only [he]
                rw [hk] at hdp
                exact h_bad m err q _ e hnil hsemi' hkey hdp (ih _ _ _ hlen)
            | some k =>
                simp only [QueryUnescape_of_decode _ _ hk]
                cases hv : Spec.percentDecode (Cut (Cut q (ch '&')).1 (ch '=')).2.1 with
                | none =>
                    obtain ⟨e, he⟩ := QueryUnescape_of_decode_none _ hv
                    simp only [he]
                    rw [hk, hv] at hdp
                    exact h_bad m err q _ e hnil hsemi' hkey hdp (ih _ _ _ hlen)
                | some v =>
                    simp only [QueryUnescape_of_decode _ _ hv]
                    rw [hk, hv] at hdp
                    exact h_ok m err q _ k v hnil hsemi' hkey hdp (ih _ _ _ hlen)

theorem StrMap.mem_set (m : StrMap) (k : GoString) (vs : List GoString)
    (kv : GoString × List GoString) (h : kv ∈ m.set k vs) : kv = (k, vs) ∨ kv ∈ m := by
  induction m with
  | nil => simp [StrMap.set] at h; exact Or.inl h
  | cons hd tl ih =>
      obtain ⟨k', vs'⟩ := hd
      by_cases hk : k' = k
      · simp only [StrMap.set, hk, if_true, List.mem_cons] at h
        rcases h with h | h
        · exact Or.inl h
        · exact Or.inr (List.mem_cons_of_mem _ h)
      · simp only [StrMap.set, hk, if_false, List.mem_cons] at h
        rcases h with h | h
        · exact Or.inr (h ▸ List.mem_cons_self _ _)
        · rcases ih h with h | h
          · exact Or.inl h
          · exact Or.inr (List.mem_cons_of_mem _ h)

theorem StrMap.get_set_self (m : StrMap) (k : GoString) (vs : List GoString) :
    (m.set k vs).get k = vs := by
  induction m with
  | nil => simp [StrMap.set, StrMap.get]
  | cons hd tl ih =>
      obtain ⟨k', vs'⟩ := hd
      by_cases hk : k' = k
      · simp [StrMap.set, StrMap.get, hk]
      · simp [StrMap.set, StrMap.get, hk, ih]

theorem StrMap.get_set_ne (m : StrMap) (k k' : GoString) (vs : List GoString) (hne : k ≠ k') :
    (m.set k vs).get k' = m.get k' := by
  induction m with
  | nil => simp [StrMap.set, StrMap.get, hne]
  | cons hd tl ih =>
      obtain ⟨k₀, vs₀⟩ := hd
      by_cases hk : k₀ = k
      · subst hk
        simp [StrMap.set, StrMap.get, hne]
      · by_cases hk' : k₀ = k'
        · subst hk'
          simp [StrMap.set, StrMap.get, hk]
        · simp [StrMap.set, StrMap.get, hk, hk', ih]

theorem StrMap.keys_set (m : StrMap) (k : GoString) (vs : List GoString) :
    (m.set k vs).map Prod.fst =
      if k ∈ m.map Prod.fst then m.map Prod.fst else m.map Prod.fst ++ [k] := by
  induction m with
  | nil => simp [StrMap.set]
  | cons hd tl ih =>
      obtain ⟨k', vs'⟩ := hd
      by_cases hk : k' = k
      · subst hk
        simp [StrMap.set]
      · have hk' : ¬ k = k' := fun e => hk e.symm
        simp only [StrMap.set, hk, if_false, List.map_cons, ih, List.mem_cons, hk', false_or]
        split <;> simp

theorem StrMap.nodup_set (m : StrMap) (k : GoString) (vs : List GoString)
    (h : (m.map Prod.fst).Nodup) : ((m.set k vs).map Prod.fst).Nodup := by
  rw [StrMap.keys_set]
  split
  · exact h
  · rename_i hk
    rw [List.nodup_append]
    refine ⟨h, List.nodup_singleton k, ?_⟩
    intro a ha hb
    simp only [List.mem_singleton] at hb
    subst hb
    exact hk ha

theorem addPairs_cons (m : StrMap) (p : GoString × GoString) (ps : List (GoString × GoString)) :
    addPairs m (p :: ps) = addPairs (m.set p.1 (m.get p.1 ++ [p.2])) ps := rfl

theorem get_addPairs (pairs : List (GoString × GoString)) :
    ∀ (m : StrMap) (k : GoString), (addPairs m pairs).get k = m.get k ++ Spec.valuesOf pairs k := by
  induction pairs with
  | nil => intro m k; simp [addPairs, Spec.valuesOf]
  | cons p ps ih =>
      intro m k
      rw [addPairs_cons, ih]
      by_cases hk : p.1 = k
      · subst hk
        simp [StrMap.get_set_self, Spec.valuesOf, List.filterMap_cons]
      · simp [StrMap.get_set_ne _ _ _ _ hk, Spec.valuesOf, List.filterMap_cons, hk]

theorem mem_keys_addPairs (pairs : List (GoString × GoString)) :
    ∀ (m : StrMap) (k : GoString),
      k ∈ (addPairs m pairs).map Prod.fst ↔ k ∈ m.map Prod.fst ∨ k ∈ pairs.map Prod.fst := by
  induction pairs with
  | nil => intro m k; simp [addPairs]
  | cons p ps ih =>
      intro m k
      rw [addPairs_cons, ih, StrMap.keys_set]
      by_cases hp : p.1 ∈ m.map Prod.fst
      · simp only [hp, if_true, List.map_cons, List.mem_cons]
        constructor
        · rintro (h | h)
          · exact Or.inl h
          · exact Or.inr (Or.inr h)
        · rintro (h | h | h)
          · exact Or.inl h
          · exact Or.inl (h ▸ hp)
          · exact Or.inr h
      · simp only [hp, if_false, List.map_cons, List.mem_cons, List.mem_append,
          List.mem_singleton]
        tauto

theorem parseQueryLoop_fuel (fuel : Nat) :
    ∀ (m : StrMap) (err : Option ParseErr) (q : GoString), q.length ≤ fuel →
      parseQueryLoop (fuel + 1) m err q = parseQueryLoop fuel m err q := by
  induction fuel with
  | zero =>
      intro m err q hq
      have : q = [] := List.length_eq_zero.mp (Nat.le_zero.mp hq)
      subst this
      simp [parseQueryLoop]
  | succ fuel ih =>
      intro m err q hq
      by_cases hnil : q = []
      · subst hnil
        simp [parseQueryLoop]
      · have hlen : (Cut q (ch '&')).2.1.length ≤ fuel := by
          have := Cut_length q (ch '&') hnil
          omega
        rw [parseQueryLoop]
        conv => rhs; rw [parseQueryLoop]
        simp only [hnil, if_false, fun m err => ih m err _ hlen]

theorem parseQueryLoop_fuel_ge (k : Nat) :
    ∀ (m : StrMap) (err : Option ParseErr) (q : GoString),
      parseQueryLoop (q.length + k) m err q = parseQueryLoop q.length m err q := by
  induction k with
  | zero => intro m err q; rfl
  | succ k ih =>
      intro m err q
      rw [← ih m err q]
      exact parseQueryLoop_fuel (q.length + k) m err q (Nat.le_add_right _ _)

theorem parseQueryLoop_spec (fuel : Nat) (m : StrMap) (err : Option ParseErr) (q : GoString)
    (hq : q.length ≤ fuel) :
    ∃ m' err', parseQueryLoop fuel m err q = .returned (m', err') ∧
      (m.valuesNonempty → m'.valuesNonempty) ∧
      ((m.map Prod.fst).Nodup → (m'.map Prod.fst).Nodup) ∧
      (err ≠ none → err' ≠ none) ∧
      (err' = none → ∃ pairs, Spec.decodedPairs q = some pairs ∧ m' = addPairs m pairs) := by
  refine parseQueryLoop_induct
    (fun m err q r => ∃ m' err', r = .returned (m', err') ∧
      (m.valuesNonempty → m'.valuesNonempty) ∧
      ((m.map Prod.fst).Nodup → (m'.map Prod.fst).Nodup) ∧
      (err ≠ none → err' ≠ none) ∧
      (err' = none → ∃ pairs, Spec.decodedPairs q = some pairs ∧ m' = addPairs m pairs))
    ?_ ?_ ?_ ?_ ?_ fuel m err q hq
  · intro m err
    exact ⟨m, err, rfl, id, id, id, fun _ => ⟨[], rfl, rfl⟩⟩
  · rintro m err q r hnil hsemi ⟨m', err', hr, hv, hn, he, _⟩
    exact ⟨m', err', hr, hv, hn, fun _ => he (by simp),
      fun h => absurd h (he (by simp))⟩
  · rintro m err q r hnil hkey ⟨m', err', hr, hv, hn, he, hp⟩
    refine ⟨m', err', hr, hv, hn, he, fun h => ?_⟩
    obtain ⟨pairs, hd, hm⟩ := hp h
    refine ⟨pairs, ?_, hm⟩
    unfold Spec.decodedPairs at hd ⊢
    rw [queryPieces_Cut, hkey]
    simpa using hd
  · rintro m err q r e hnil hsemi hkey hdec ⟨m', err', hr, hv, hn, he, _⟩
    have hne : (if err = none then some (ParseErr.escape e) else err) ≠ none := by
      split
      · simp
      · assumption
    exact ⟨m', err', hr, hv, hn, fun _ => he hne, fun h => absurd h (he hne)⟩
  · rintro m err q r k v hnil hsemi hkey hdec ⟨m', err', hr, hv, hn, he, hp⟩
    refine ⟨m', err', hr, ?_, ?_, he, fun h => ?_⟩
    · intro hm
      apply hv
      intro kv hkv
      rcases StrMap.mem_set _ _ _ _ hkv with h | h
      · subst h
        simp
      · exact hm kv h
    · intro hm
      exact hn (StrMap.nodup_set _ _ _ hm)
    · obtain ⟨pairs, hd, hm⟩ := hp h
      refine ⟨(k, v) :: pairs, ?_, ?_⟩
      · unfold Spec.decodedPairs at hd ⊢
        rw [queryPieces_Cut]
        simp only [hkey, if_false, List.singleton_append, Spec.decodeAll, hdec, hd]
      · rw [addPairs_cons]
        exact hm

theorem ParseQuery_spec (q : GoString) :
    ∃ m err, ParseQuery q = .returned (m, err) ∧ m.valuesNonempty ∧ (m.map Prod.fst).Nodup ∧
      (err = none → ∃ pairs, Spec.decodedPairs q = some pairs ∧ m = addPairs [] pairs) := by
  obtain ⟨m, err, h, hv, hn, _, hp⟩ := parseQueryLoop_spec q.length [] none q (Nat.le_refl _)
  exact ⟨m, err, h, hv (fun kv hkv => by simp at hkv), hn (by simp), hp⟩

/-! ## Lemmas on `FormData` -/

theorem Errorf_Is_other (a : GoString) :
    (Errorf .ErrHTTPInvalidBody a).Is (.http .ErrHTTPInvalidContentType) = false ∧
    (Errorf .ErrHTTPInvalidContentType a).Is (.http .ErrHTTPInvalidBody) = false ∧
    (Errorf .ErrHTTPInvalidBody a).Is (.http .ErrHTTPInvalidBody) = true ∧
    (Errorf .ErrHTTPInvalidContentType a).Is (.http .ErrHTTPInvalidContentType) = true := by
  simp [Errorf, GoError.Is]

theorem formDataRange_ne_panicked (body : GoString) (m : StrMap) (hm : m.valuesNonempty) :
    formDataRange body m ≠ some .panicked := by
  induction m with
  | nil => simp [formDataRange]
  | cons hd tl ih =>
      obtain ⟨k, v⟩ := hd
      cases v with
      | nil => exact absurd rfl (hm (k, []) (List.mem_cons_self _ _))
      | cons v0 vs =>
          simp only [formDataRange]
          split
          · simp
          · exact ih (fun kv hkv => hm kv (List.mem_cons_of_mem _ hkv))

theorem FormData_of_parse {Any Metadata : Type} (mapLower : GoString → GoString)
    (t : HTTP Any Metadata)
    (hct : ToLower mapLower (t.Headers.Get (str "Content-Type")) =
      str "application/x-www-form-urlencoded")
    (data : StrMap) (err : Option ParseErr)
    (hp : ParseQuery t.Body.string = .returned (data, err)) (hv : data.valuesNonempty) :
    (err ≠ none ∨ (∃ k vs, data = [(k, [] :: vs)]) →
      t.FormData mapLower = .returned (none, some (Errorf .ErrHTTPInvalidBody t.Body.string))) ∧
    (¬ (err ≠ none ∨ ∃ k vs, data = [(k, [] :: vs)]) →
      t.FormData mapLower = .returned (some data, none)) := by
  unfold HTTP.FormData
  simp only [hct, ne_eq, not_true_eq_false, if_false, hp]
  cases err with
  | some e => simp
  | none =>
      simp only [not_true_eq_false, false_or]
      by_cases hlen : data.length = 1
      · obtain ⟨⟨k, v⟩, hd⟩ := List.length_eq_one.mp hlen
        subst hd
        have hvne : v ≠ [] := hv (k, v) (List.mem_singleton_self _)
        cases v with
        | nil => exact absurd rfl hvne
        | cons v0 vs =>
            by_cases h0 : v0 = []
            · subst h0
              simp [formDataRange]
            · simp [formDataRange, h0]
      · simp only [hlen, if_false]
        constructor
        · rintro ⟨k, vs, hd⟩
          subst hd
          simp at hlen
        · intro _
          trivial

theorem FormData_of_content_type {Any Metadata : Type} (mapLower : GoString → GoString)
    (t : HTTP Any Metadata)
    (hct : ToLower mapLower (t.Headers.Get (str "Content-Type")) ≠
      str "application/x-www-form-urlencoded") :
    t.FormData mapLower = .returned (none, some (.wrapError
      (str "invalid Content-Type: " ++ t.Headers.Get (str "Content-Type"))
      (.http .ErrHTTPInvalidContentType))) := by
  unfold HTTP.FormData
  simp only [ne_eq, hct, not_false_eq_true, if_true]
  rfl

/-! ## The claims -/

/-- C1: `FormData` fails with an error wrapping `ErrHTTPInvalidContentType`
exactly when the lower-cased `Content-Type` header is not
`application/x-www-form-urlencoded`; it then returns a nil mapping and the
error text `invalid Content-Type: ` followed by the header value as received,
whatever the body is; `application/json` fails so for every body. -/
theorem FormData_invalid_content_type {Any Metadata : Type} (mapLower : GoString → GoString)
    (t : HTTP Any Metadata) :
    ((∃ vals e, t.FormData mapLower = .returned (vals, some e) ∧
          e.Is (.http .ErrHTTPInvalidContentType) = true) ↔
        ToLower mapLower (t.Headers.Get (str "Content-Type")) ≠
          str "application/x-www-form-urlencoded") ∧
    (ToLower mapLower (t.Headers.Get (str "Content-Type")) ≠
        str "application/x-www-form-urlencoded" →
      ∀ body : Raw, ({ t with Body := body } : HTTP Any Metadata).FormData mapLower =
        .returned (none, some (.wrapError
          (str "invalid Content-Type: " ++ t.Headers.Get (str "Content-Type"))
          (.http .ErrHTTPInvalidContentType)))) ∧
    (t.Headers.Get (str "Content-Type") = str "application/json" →
      ∀ body : Raw, ({ t with Body := body } : HTTP Any Metadata).FormData mapLower =
        .returned (none, some (.wrapError (str "invalid Content-Type: application/json")
          (.http .ErrHTTPInvalidContentType)))) := by
  have hfail : ToLower mapLower (t.Headers.Get (str "Content-Type")) ≠
        str "application/x-www-form-urlencoded" →
      ∀ body : Raw, ({ t with Body := body } : HTTP Any Metadata).FormData mapLower =
        .returned (none, some (.wrapError
          (str "invalid Content-Type: " ++ t.Headers.Get (str "Content-Type"))
          (.http .ErrHTTPInvalidContentType))) :=
    fun h body => FormData_of_content_type mapLower { t with Body := body } h
  refine ⟨⟨?_, ?_⟩, hfail, ?_⟩
  · rintro ⟨vals, e, hret, his⟩ hct
    obtain ⟨data, err, hp, hv, _, _⟩ := ParseQuery_spec t.Body.string
    have hcases := FormData_of_parse mapLower t hct data err hp hv
    by_cases hc : err ≠ none ∨ ∃ k vs, data = [(k, [] :: vs)]
    · rw [hcases.1 hc] at hret
      cases hret
      rw [(Errorf_Is_other _).1] at his
      cases his
    · rw [hcases.2 hc] at hret
      cases hret
  · intro h
    exact ⟨none, _, hfail h t.Body, by simp [GoError.Is]⟩
  · intro hj body
    have h : ToLower mapLower (t.Headers.Get (str "Content-Type")) ≠
        str "application/x-www-form-urlencoded" := by
      rw [hj]
      have : ToLower mapLower (str "application/json") = str "application/json" := rfl
      rw [this]
      decide
    rw [hfail h body, hj]
    rfl

/-- C2, as stated, fails: with `Content-Type: application/x-www-form-urlencoded`
and body `x=&x=1` the parse succeeds with the single key `x` holding the two
values `""` and `"1"`, which is neither a parse failure nor a single key with
a single empty value, and `FormData` fails with `ErrHTTPInvalidBody`. -/
theorem FormData_invalid_body_counterexample :
    ¬ ((∃ vals e, (formTrigger (str "application/x-www-form-urlencoded")
            (str "x=&x=1")).FormData id = .returned (vals, some e) ∧
          e.Is (.http .ErrHTTPInvalidBody) = true) ↔
        (∃ data err, ParseQuery (str "x=&x=1") = .returned (data, err) ∧
          (err ≠ none ∨ ∃ k, data = [(k, [[]])]))) := by
  intro h
  have hl : ∃ vals e, (formTrigger (str "application/x-www-form-urlencoded")
        (str "x=&x=1")).FormData id = .returned (vals, some e) ∧
      e.Is (.http .ErrHTTPInvalidBody) = true :=
    ⟨none, Errorf .ErrHTTPInvalidBody (str "x=&x=1"), by decide, by decide⟩
  obtain ⟨data, err, hp, hc⟩ := h.mp hl
  have hq : ParseQuery (str "x=&x=1") = .returned ([(str "x", [str "", str "1"])], none) := by
    decide
  rw [hq] at hp
  cases hp
  rcases hc with hc | ⟨k, hc⟩
  · exact hc rfl
  · cases hc

/-- C2, amended: for a trigger whose `Content-Type` passes the check,
`FormData` fails with an error wrapping `ErrHTTPInvalidBody`, whose text is
`invalid body: ` followed by the raw body, exactly when the body fails to
parse as URL-encoded form data or the parse yields exactly one key whose
first value is the empty string; in every other case it returns the parsed
mapping and no error. -/
theorem FormData_invalid_body {Any Metadata : Type} (mapLower : GoString → GoString)
    (t : HTTP Any Metadata)
    (hct : ToLower mapLower (t.Headers.Get (str "Content-Type")) =
      str "application/x-www-form-urlencoded") :
    ∃ data err, ParseQuery t.Body.string = .returned (data, err) ∧
      ((∃ vals e, t.FormData mapLower = .returned (vals, some e) ∧
            e.Is (.http .ErrHTTPInvalidBody) = true) ↔
          (err ≠ none ∨ ∃ k vs, data = [(k, [] :: vs)])) ∧
      ((err ≠ none ∨ ∃ k vs, data = [(k, [] :: vs)]) →
        t.FormData mapLower = .returned (none, some (.wrapError
          (str "invalid body: " ++ t.Body.string) (.http .ErrHTTPInvalidBody)))) ∧
      (¬ (err ≠ none ∨ ∃ k vs, data = [(k, [] :: vs)]) →
        t.FormData mapLower = .returned (some data, none)) := by
  obtain ⟨data, err, hp, hv, _, _⟩ := ParseQuery_spec t.Body.string
  have hcases := FormData_of_parse mapLower t hct data err hp hv
  refine ⟨data, err, hp, ⟨?_, ?_⟩, ?_, hcases.2⟩
  · rintro ⟨vals, e, hret, _⟩
    by_contra hc
    rw [hcases.2 hc] at hret
    cases hret
  · intro hc
    exact ⟨none, _, hcases.1 hc, (Errorf_Is_other _).2.2.1⟩
  · intro hc
    rw [hcases.1 hc]
    rfl

/-- C2, amended, at the body `x=`: one key, whose only value is empty. -/
theorem FormData_invalid_body_witness :
    ∃ data err, ParseQuery (formTrigger (str "application/x-www-form-urlencoded")
        (str "x=")).Body.string = .returned (data, err) ∧
      ((∃ vals e, (formTrigger (str "application/x-www-form-urlencoded")
            (str "x=")).FormData id = .returned (vals, some e) ∧
            e.Is (.http .ErrHTTPInvalidBody) = true) ↔
          (err ≠ none ∨ ∃ k vs, data = [(k, [] :: vs)])) ∧
      ((err ≠ none ∨ ∃ k vs, data = [(k, [] :: vs)]) →
        (formTrigger (str "application/x-www-form-urlencoded") (str "x=")).FormData id =
          .returned (none, some (.wrapError
            (str "invalid body: " ++
              (formTrigger (str "application/x-www-form-urlencoded") (str "x=")).Body.string)
            (.http .ErrHTTPInvalidBody)))) ∧
      (¬ (err ≠ none ∨ ∃ k vs, data = [(k, [] :: vs)]) →
        (formTrigger (str "application/x-www-form-urlencoded") (str "x=")).FormData id =
          .returned (some data, none)) :=
  FormData_invalid_body id
    (formTrigger (str "application/x-www-form-urlencoded") (str "x=")) (by decide)

/-- C3: when `FormData` succeeds, the mapping it returns is the one that
URL-query decoding of the body gives: the body's non-empty `&`-separated
pieces, each split at its first `=` and percent- and plus-decoded, are the
pairs; the mapping's keys are the keys of the pairs, each once, and a key's
values are the values of its pairs in body order. The body `x=1` gives
`{"x": ["1"]}`. -/
theorem FormData_success_mapping {Any Metadata : Type} (mapLower : GoString → GoString)
    (t : HTTP Any Metadata) (vals : Values)
    (h : t.FormData mapLower = .returned (vals, none)) :
    (∃ (m : StrMap) (pairs : List (GoString × GoString)), vals = some m ∧ ParseQuery t.Body.string = .returned (m, none) ∧
      Spec.decodedPairs t.Body.string = some pairs ∧
      (m.map Prod.fst).Nodup ∧
      (∀ k, k ∈ m.map Prod.fst ↔ k ∈ pairs.map Prod.fst) ∧
      (∀ k, StrMap.get m k = Spec.valuesOf pairs k)) ∧
    (formTrigger (str "application/x-www-form-urlencoded") (str "x=1")).FormData mapLower =
      .returned (some [(str "x", [str "1"])], none) := by
  refine ⟨?_, rfl⟩
  by_cases hct : ToLower mapLower (t.Headers.Get (str "Content-Type")) =
      str "application/x-www-form-urlencoded"
  · obtain ⟨data, err, hp, hv, hn, hpairs⟩ := ParseQuery_spec t.Body.string
    have hcases := FormData_of_parse mapLower t hct data err hp hv
    by_cases hc : err ≠ none ∨ ∃ k vs, data = [(k, [] :: vs)]
    · rw [hcases.1 hc] at h
      cases h
    · rw [hcases.2 hc] at h
      cases h
      have herr : err = none := by
        by_contra he
        exact hc (Or.inl he)
      subst herr
      obtain ⟨pairs, hd, hm⟩ := hpairs rfl
      refine ⟨data, pairs, rfl, hp, hd, hn, ?_, ?_⟩
      · intro k
        rw [hm, mem_keys_addPairs]
        simp
      · intro k
        rw [hm, get_addPairs]
        simp [StrMap.get]
  · rw [FormData_of_content_type mapLower t hct] at h
    cases h

/-- C3 at the body `x=1`. -/
theorem FormData_success_mapping_witness :
    (∃ (m : StrMap) (pairs : List (GoString × GoString)),
      some [(str "x", [str "1"])] = some m ∧
      ParseQuery (formTrigger (str "application/x-www-form-urlencoded")
        (str "x=1")).Body.string = .returned (m, none) ∧
      Spec.decodedPairs (formTrigger (str "application/x-www-form-urlencoded")
        (str "x=1")).Body.string = some pairs ∧
      (m.map Prod.fst).Nodup ∧
      (∀ k, k ∈ m.map Prod.fst ↔ k ∈ pairs.map Prod.fst) ∧
      (∀ k, StrMap.get m k = Spec.valuesOf pairs k)) ∧
    (formTrigger (str "application/x-www-form-urlencoded") (str "x=1")).FormData id =
      .returned (some [(str "x", [str "1"])], none) :=
  FormData_success_mapping id
    (formTrigger (str "application/x-www-form-urlencoded") (str "x=1"))
    (some [(str "x", [str "1"])]) (by decide)

/-- C10: `FormData` never panics: `url.ParseQuery` returns for every body,
every key of its result holds at least one value, so `v[0]` in the single-key
check is defined; the bodies `&`, `=` and `x` parse to zero keys, to the key
`""` with the value `""` and to the key `x` with the value `""`; the empty
body parses to zero keys and `FormData` then returns the empty mapping. -/
theorem FormData_never_panics {Any Metadata : Type} (mapLower : GoString → GoString)
    (t : HTTP Any Metadata) :
    t.FormData mapLower ≠ .panicked ∧
    (∀ body : GoString, ∃ m err, ParseQuery body = .returned (m, err) ∧
      (∀ kv ∈ m, kv.2 ≠ []) ∧ formDataRange body m ≠ some .panicked) ∧
    ParseQuery (str "") = .returned ([], none) ∧
    ParseQuery (str "&") = .returned ([], none) ∧
    ParseQuery (str "=") = .returned ([(str "", [str ""])], none) ∧
    ParseQuery (str "x") = .returned ([(str "x", [str ""])], none) ∧
    (ToLower mapLower (t.Headers.Get (str "Content-Type")) =
        str "application/x-www-form-urlencoded" → t.Body.string = [] →
      t.FormData mapLower = .returned (some [], none)) := by
  refine ⟨?_, ?_, by decide, by decide, by decide, by decide, ?_⟩
  · by_cases hct : ToLower mapLower (t.Headers.Get (str "Content-Type")) =
        str "application/x-www-form-urlencoded"
    · obtain ⟨data, err, hp, hv, _, _⟩ := ParseQuery_spec t.Body.string
      have hcases := FormData_of_parse mapLower t hct data err hp hv
      by_cases hc : err ≠ none ∨ ∃ k vs, data = [(k, [] :: vs)]
      · rw [hcases.1 hc]
        simp
      · rw [hcases.2 hc]
        simp
    · rw [FormData_of_content_type mapLower t hct]
      simp
  · intro body
    obtain ⟨m, err, hp, hv, _, _⟩ := ParseQuery_spec body
    exact ⟨m, err, hp, hv, formDataRange_ne_panicked body m hv⟩
  · intro hct hbody
    have hp : ParseQuery t.Body.string = .returned ([], none) := by
      rw [hbody]
      rfl
    have hcases := FormData_of_parse mapLower t hct [] none hp
      (fun kv hkv => by simp at hkv)
    exact hcases.2 (by simp)

/-- C4: when the request body decodes to an envelope, `NewHTTP` returns a
trigger and no error, the trigger's `Body` is the envelope's `req.Body`, and
`Data()` returns exactly those bytes. -/
theorem NewHTTP_Data_eq_body {Any Metadata TOptions : Type}
    (Decode : List UInt8 → Option (httpTrigger Any Metadata)) (zero : TOptions)
    (r : Request) (options : List (TOptions → TOptions)) (env : httpTrigger Any Metadata)
    (h : Decode r.Body.data = some env) :
    ∃ t, (NewHTTP Decode zero r options).1 = (some t, none) ∧
      t.Body = env.Data.Req.Body ∧ t.Data = env.Data.Req.Body := by
  unfold NewHTTP
  simp only [h]
  exact ⟨_, rfl, rfl, rfl⟩

/-- C4 at the sample request. -/
theorem NewHTTP_Data_eq_body_witness :
    ∃ t, (NewHTTP sampleDecode () sampleRequest []).1 = (some t, none) ∧
      t.Body = sampleEnvelope.Data.Req.Body ∧ t.Data = sampleEnvelope.Data.Req.Body :=
  NewHTTP_Data_eq_body sampleDecode () sampleRequest [] sampleEnvelope (by decide)

/-- C6, what the code does: `NewHTTP` and `NewTimer` call `Close` on the
request body once when decoding succeeds and not at all when it fails. -/
theorem constructors_close_count {Any Metadata TOptions Time TMetadata : Type}
    (DecodeHTTP : List UInt8 → Option (httpTrigger Any Metadata))
    (DecodeTimer : List UInt8 → Option (timerTrigger Time TMetadata)) (zero : TOptions)
    (r : Request) (options : List (TOptions → TOptions)) (timerOptions : List TimerOption) :
    (NewHTTP DecodeHTTP zero r options).2.Body.closed =
      (if (DecodeHTTP r.Body.data).isSome then r.Body.closed + 1 else r.Body.closed) ∧
    (NewTimer DecodeTimer r timerOptions).2.Body.closed =
      (if (DecodeTimer r.Body.data).isSome then r.Body.closed + 1 else r.Body.closed) ∧
    (DecodeHTTP r.Body.data = none →
      NewHTTP DecodeHTTP zero r options = ((none, some .ErrTriggerPayloadMalformed), r)) ∧
    (DecodeTimer r.Body.data = none →
      NewTimer DecodeTimer r timerOptions = ((none, some .ErrTriggerPayloadMalformed), r)) := by
  refine ⟨?_, ?_, ?_, ?_⟩
  · unfold NewHTTP
    cases DecodeHTTP r.Body.data <;> rfl
  · unfold NewTimer
    cases DecodeTimer r.Body.data <;> rfl
  · intro h
    simp [NewHTTP, h]
  · intro h
    simp [NewTimer, h]

/-- C7, as stated, fails: from a nil header, `WithHeader({"X": ["a"]})` and
then `WithHeader({"X": ["b"]})` leave the key `X` with the two values `a` and
`b`, not with the single value `a, b`. -/
theorem WithHeader_twice_counterexample :
    StrMap.get
        (((bindings.WithHeader (some [(str "X", [str "b"])])
          (bindings.WithHeader (some [(str "X", [str "a"])])
            { StatusCode := 0, Body := none, Header := none, Data := none,
              Name := [] })).Header).getD [])
        (str "X") = [str "a", str "b"] ∧
    StrMap.get
        (((bindings.WithHeader (some [(str "X", [str "b"])])
          (bindings.WithHeader (some [(str "X", [str "a"])])
            { StatusCode := 0, Body := none, Header := none, Data := none,
              Name := [] })).Header).getD [])
        (str "X") ≠ [str "a" ++ str ", " ++ str "b"] := by
  decide

/-- C7, amended: from a nil header, `WithHeader({"X": [a]})` and then
`WithHeader({"X": [b]})` leave the key `X` with the two values `a` and `b`,
in that order: the second call adds a value and replaces none. The values
are joined with `, ` only inside one call: `WithHeader({"X": [a, b]})` leaves
`X` with the single value `a + ", " + b`. No other field changes. -/
theorem WithHeader_twice (o : bindings.Options) (a b : GoString) (h : o.Header = none) :
    bindings.WithHeader (some [(str "X", [b])]) (bindings.WithHeader (some [(str "X", [a])]) o) =
      { o with Header := some [(str "X", [a, b])] } ∧
    bindings.WithHeader (some [(str "X", [a, b])]) o =
      { o with Header := some [(str "X", [a ++ str ", " ++ b])] } := by
  constructor
  · simp only [bindings.WithHeader, h]
    rfl
  · simp only [bindings.WithHeader, h]
    rfl

/-- C7, amended, at `a = "a"` and `b = "b"`. -/
theorem WithHeader_twice_witness :
    bindings.WithHeader (some [(str "X", [str "b"])])
        (bindings.WithHeader (some [(str "X", [str "a"])])
          { StatusCode := 200, Body := none, Header := none, Data := none, Name := str "res" }) =
      { ({ StatusCode := 200, Body := none, Header := none, Data := none,
            Name := str "res" } : bindings.Options) with
        Header := some [(str "X", [str "a", str "b"])] } ∧
    bindings.WithHeader (some [(str "X", [str "a", str "b"])])
        { StatusCode := 200, Body := none, Header := none, Data := none, Name := str "res" } =
      { ({ StatusCode := 200, Body := none, Header := none, Data := none,
            Name := str "res" } : bindings.Options) with
        Header := some [(str "X", [str "a" ++ str ", " ++ str "b"])] } :=
  WithHeader_twice
    { StatusCode := 200, Body := none, Header := none, Data := none, Name := str "res" }
    (str "a") (str "b") rfl

/-- C8: for every Timer trigger and every target, `Parse` returns a nil error
and leaves the target as it was, and `Data()` returns the nil payload, of
length zero. -/
theorem Timer_Parse_Data {Time Metadata Target : Type} (t : Timer Time Metadata) (v : Target) :
    t.Parse v = (v, none) ∧ t.Data = none ∧ t.Data.string.length = 0 :=
  ⟨rfl, rfl, rfl⟩

end Azfunc
